import Mathlib

/-!
# Verification of the IPE2 partner/founder reconciliation engine

Shallow embedding of the core matching and founder-inference code of the
pipeline (`src/etl/enrich_cnpj.py`, `src/etl/founder_analysis.py`,
`src/cnpj/prepare_socios.py`, `src/utils/clean.py`), together with proofs
of the specification claims about it.

Strings are embedded as Lean `String`s (lists of characters), Polars
DataFrames as Lean lists of record rows, dates as day counts (rata-die
style), and Python `None` as `Option.none`.  Functions from external
libraries (`unidecode`, `rapidfuzz`, polars `strptime`) are modelled
explicitly where the model matters and abstracted where it does not.
-/

namespace IPE2

/-! ## Fragment extractors

`_middle_cpf_fragment` from `src/etl/enrich_cnpj.py` (lines 25-32) and
`_cpf_fragment_from_digits` from `src/cnpj/prepare_socios.py` (lines 64-72).
-/

/-- `_middle_cpf_fragment` from `enrich_cnpj.py`: keeps only the digits of
the input, returns the slice `digits[3:9]` when at least 11 digits remain
and the empty string otherwise.  `None` and `""` inputs (Python falsy)
yield the empty string. -/
def middle_cpf_fragment (value : Option String) : String :=
  match value with
  | none => ""
  | some v =>
    if v = "" then ""
    else
      let digits := v.data.filter Char.isDigit
      if digits.length < 11 then "" else ⟨(digits.drop 3).take 6⟩

/-- `_cpf_fragment_from_digits` from `prepare_socios.py`: on a string of at
least 11 characters returns the slice `[3:9]`, with 6 to 10 characters the
last six characters (`[-6:]`), otherwise the empty string.  Unlike
`middle_cpf_fragment` it does not strip non-digit characters first. -/
def cpf_fragment_from_digits (d : Option String) : String :=
  match d with
  | none => ""
  | some v =>
    if v = "" then ""
    else
      let digits := v.data
      if 11 ≤ digits.length then ⟨(digits.drop 3).take 6⟩
      else if 6 ≤ digits.length then ⟨digits.drop (digits.length - 6)⟩
      else ""

/-- The extraction rule as worded by the spec (§3): ≥ 11 digits → middle
slice at offsets 3 through 8; 6 to 10 digits → last six; otherwise empty.
Stated from the spec's words for comparison with the two source
extractors. -/
def fragment_rule_spec (d : String) : String :=
  if 11 ≤ d.data.length then ⟨(d.data.drop 3).take 6⟩
  else if 6 ≤ d.data.length then ⟨d.data.drop (d.data.length - 6)⟩
  else ""

/-! ## Name normalizer

`normalize_name` from `src/utils/clean.py`:
`unidecode(str(name)).strip()`, collapse whitespace runs to a single
space, then `.upper()`.  The transliteration performed by the external
`unidecode` dependency is modelled by an explicit character table covering
the Latin accented letters; its load-bearing property — output is always
ASCII, and ASCII input passes through unchanged — matches the library.
-/

/-- ASCII whitespace characters, the ones Python's `str.strip` and the
regex `\s` recognise on the ASCII strings produced by `unidecode`. -/
def isWs (c : Char) : Bool :=
  c == ' ' || c == '\t' || c == '\n' || c == '\x0b' || c == '\x0c' || c == '\r'

/-- First-match association lookup used by the character tables. -/
def lookupAssoc {β : Type} : List (Char × β) → Char → Option β
  | [], _ => none
  | (k, v) :: rest, c => if c = k then some v else lookupAssoc rest c

/-- Transliteration table modelling the external `unidecode` dependency on
the accented Latin letters that occur in Brazilian names; characters
outside the table and outside ASCII are dropped, as `unidecode` drops
unmapped characters. -/
def uniTable : List (Char × List Char) :=
  [ ('á', ['a']), ('à', ['a']), ('â', ['a']), ('ã', ['a']), ('ä', ['a']), ('å', ['a'])
  , ('Á', ['A']), ('À', ['A']), ('Â', ['A']), ('Ã', ['A']), ('Ä', ['A']), ('Å', ['A'])
  , ('é', ['e']), ('è', ['e']), ('ê', ['e']), ('ë', ['e'])
  , ('É', ['E']), ('È', ['E']), ('Ê', ['E']), ('Ë', ['E'])
  , ('í', ['i']), ('ì', ['i']), ('î', ['i']), ('ï', ['i'])
  , ('Í', ['I']), ('Ì', ['I']), ('Î', ['I']), ('Ï', ['I'])
  , ('ó', ['o']), ('ò', ['o']), ('ô', ['o']), ('õ', ['o']), ('ö', ['o'])
  , ('Ó', ['O']), ('Ò', ['O']), ('Ô', ['O']), ('Õ', ['O']), ('Ö', ['O'])
  , ('ú', ['u']), ('ù', ['u']), ('û', ['u']), ('ü', ['u'])
  , ('Ú', ['U']), ('Ù', ['U']), ('Û', ['U']), ('Ü', ['U'])
  , ('ç', ['c']), ('Ç', ['C']), ('ñ', ['n']), ('Ñ', ['N'])
  , ('ý', ['y']), ('Ý', ['Y'])
  , ('ß', ['s', 's']), ('æ', ['a', 'e']), ('Æ', ['A', 'E'])
  , ('œ', ['o', 'e']), ('Œ', ['O', 'E']) ]

/-- Transliteration of one character: ASCII passes through, accented
letters map through `uniTable`, anything else is dropped. -/
def uniChar (c : Char) : List Char :=
  if c.toNat < 128 then [c] else (lookupAssoc uniTable c).getD []

/-- Transliteration of a character list, concatenating the per-character
replacements, as `unidecode` does over a string. -/
def uniStr (l : List Char) : List Char := l.flatMap uniChar

/-- Python `str.strip` on the ASCII strings in scope: drop leading and
trailing whitespace. -/
def pyStrip (l : List Char) : List Char :=
  ((l.dropWhile isWs).reverse.dropWhile isWs).reverse

/-- Worker for the regex substitution `re.sub(r"\s+", " ", s)`: each
maximal run of whitespace becomes one space; the flag records whether the
previous character was part of a whitespace run already replaced. -/
def collapseAux : List Char → Bool → List Char
  | [], _ => []
  | c :: rest, true =>
    if isWs c then collapseAux rest true else c :: collapseAux rest false
  | c :: rest, false =>
    if isWs c then ' ' :: collapseAux rest true else c :: collapseAux rest false

/-- The regex substitution `re.sub(r"\s+", " ", s)` from `normalize_name`. -/
def pyCollapse (l : List Char) : List Char := collapseAux l false

/-- Lower-to-upper table for ASCII letters: the effect of Python
`str.upper` on the ASCII strings produced by the preceding stages. -/
def lowercaseTable : List (Char × Char) :=
  [ ('a', 'A'), ('b', 'B'), ('c', 'C'), ('d', 'D'), ('e', 'E'), ('f', 'F')
  , ('g', 'G'), ('h', 'H'), ('i', 'I'), ('j', 'J'), ('k', 'K'), ('l', 'L')
  , ('m', 'M'), ('n', 'N'), ('o', 'O'), ('p', 'P'), ('q', 'Q'), ('r', 'R')
  , ('s', 'S'), ('t', 'T'), ('u', 'U'), ('v', 'V'), ('w', 'W'), ('x', 'X')
  , ('y', 'Y'), ('z', 'Z') ]

/-- Upper-casing of one character per `lowercaseTable`. -/
def upperChar (c : Char) : Char := (lookupAssoc lowercaseTable c).getD c

/-- `normalize_name` from `src/utils/clean.py`: `None` yields the empty
string; otherwise transliterate, strip, collapse whitespace runs to single
spaces and upper-case. -/
def normalize_name : Option String → String
  | none => ""
  | some s => ⟨(pyCollapse (pyStrip (uniStr s.data))).map upperChar⟩

/-! ## Fuzzy identity matcher (row level)

The per-person matching logic of `mark_founders` in
`src/etl/enrich_cnpj.py` (lines 166-208): `socio_cpf` from the fragment
join, `_matched_socios` with `_has_similar_name`, `socio_nome` and the
final `socio` flag.  The similarity score `fuzz.token_set_ratio` is
external library code (rapidfuzz); the model takes the scorer as an
explicit parameter `score` so that every theorem quantifies over the
scorer's behaviour. -/

/-- One element of a `socio_pairs` list: the struct built by
`_load_socios_base` with fields `nome_norm`, `cnpj_basico`,
`data_associacao` (all nullable). -/
structure SocioPair where
  nome_norm : Option String
  cnpj_basico : Option String
  data_associacao : Option String
deriving DecidableEq, Repr

/-- Modelled from the spec: `rapidfuzz.fuzz.token_set_ratio` is an
external dependency, described by the spec as an order-independent token
overlap ratio in 0..100.  This conservative stand-in returns 100 exactly
on identical strings — the only behaviour the spec pins down (its
matcher-existential test compares equal names) — and 0 otherwise; it is
used only to instantiate score-parametric statements at concrete
inputs. -/
def token_set_ratio_model (a b : String) : Nat :=
  if a = b then 100 else 0

/-- `_has_similar_name` from `enrich_cnpj.py` (lines 104-110): an empty
person name never matches; otherwise some candidate must reach the
threshold (default 90). -/
def has_similar_name (score : String → String → Nat) (nome : String)
    (candidatos : List String) (threshold : Nat := 90) : Bool :=
  if nome = "" then false
  else candidatos.any fun candidato => threshold ≤ score nome candidato

/-- `_matched_socios` from `enrich_cnpj.py` (lines 170-184): keeps, in
order, the `(cnpj, data_associacao)` of each fragment-joined candidate
whose name clears `_has_similar_name` and whose `cnpj_basico` is truthy
(non-null and non-empty).  Returns the `cnpjs` and `datas` lists zipped
into one list of pairs. -/
def matched_socios (score : String → String → Nat) (nome_norm : Option String)
    (socio_pairs : List SocioPair) : List (String × Option String) :=
  let nome := nome_norm.getD ""
  if socio_pairs = [] ∨ nome = "" then []
  else socio_pairs.filterMap fun pair =>
    let candidato := pair.nome_norm.getD ""
    if has_similar_name score nome [candidato] then
      let cnpj := pair.cnpj_basico.getD ""
      if cnpj ≠ "" then some (cnpj, pair.data_associacao) else none
    else none

/-- The per-person match columns computed by `mark_founders`. -/
structure MatchRow where
  socio_cpf : Bool
  socio_nome : Bool
  socio : Bool
  cnpjs : List String
  datas : List (Option String)
deriving DecidableEq, Repr

/-- Lines 159-208 of `enrich_cnpj.py` for one person row: a null
`socio_pairs` becomes the empty list, `socio_cpf` is list non-emptiness,
`socio_nome` is non-emptiness of the matched cnpjs, and
`socio = socio_cpf AND socio_nome`. -/
def match_row (score : String → String → Nat) (nome_norm : Option String)
    (socio_pairs : Option (List SocioPair)) : MatchRow :=
  let pairs := socio_pairs.getD []
  let socio_cpf := decide (0 < pairs.length)
  let m := matched_socios score nome_norm pairs
  let cnpjs := m.map Prod.fst
  let socio_nome := decide (0 < cnpjs.length)
  { socio_cpf := socio_cpf
  , socio_nome := socio_nome
  , socio := socio_cpf && socio_nome
  , cnpjs := cnpjs
  , datas := m.map Prod.snd }

/-- Modelled from the spec: `matched_by_name` as the spec's §3 Match
Result words it — at least one fragment-joined candidate's normalized
name is similar enough (score ≥ 90) to the person's normalized name —
with no condition on the candidate's company id. -/
def matched_by_name_spec (score : String → String → Nat) (nome_norm : Option String)
    (socio_pairs : List SocioPair) : Bool :=
  socio_pairs.any fun pair => 90 ≤ score (nome_norm.getD "") (pair.nome_norm.getD "")

/-- Modelled from the spec: the final `is_partner` flag per the spec's §3
Match Result — fragment signal AND the spec's name signal. -/
def is_partner_spec (score : String → String → Nat) (nome_norm : Option String)
    (socio_pairs : List SocioPair) : Bool :=
  decide (0 < socio_pairs.length) && matched_by_name_spec score nome_norm socio_pairs

/-! ## Dates

`_parse_date` (identical in `enrich_cnpj.py` lines 72-76 and
`founder_analysis.py` lines 15-20) tries the ISO format `%Y-%m-%d` and
falls back to the compact `%Y%m%d`; unparseable values become null.  The
`strptime` primitive is polars/chrono library code, modelled here for the
two fixed formats the source requests (four-digit year, two-digit month
and day, calendar-valid).  A parsed date is represented by its civil day
number so that polars' date subtraction `.dt.days()` is plain
subtraction. -/

/-- Numeric value of a digit character list (most significant first);
assumes all characters are digits. -/
def digitsToNat (cs : List Char) : Nat :=
  cs.foldl (fun a c => a * 10 + (c.toNat - 48)) 0

def isLeap (y : Nat) : Bool :=
  (y % 4 == 0 && y % 100 != 0) || y % 400 == 0

def daysInMonth (y m : Nat) : Nat :=
  if m = 2 then (if isLeap y then 29 else 28)
  else if m = 4 ∨ m = 6 ∨ m = 9 ∨ m = 11 then 30
  else 31

/-- Day number of a civil date (continuous across the Gregorian calendar
for years ≥ 1), so that differences of day numbers are day gaps. -/
def daysFromCivil (y m d : Nat) : Nat :=
  let y2 := if m ≤ 2 then y - 1 else y
  let era := y2 / 400
  let yoe := y2 % 400
  let doy := (153 * (if 2 < m then m - 3 else m + 9) + 2) / 5 + d - 1
  let doe := yoe * 365 + yoe / 4 - yoe / 100 + doy
  era * 146097 + doe

/-- A `(year, month, day)` triple is accepted only when calendar-valid,
as `strptime` rejects impossible dates. -/
def mkDate (y m d : Nat) : Option Nat :=
  if 1 ≤ m ∧ m ≤ 12 ∧ 1 ≤ d ∧ d ≤ daysInMonth y m then some (daysFromCivil y m d)
  else none

/-- `strptime` with format `%Y-%m-%d`. -/
def parse_iso (s : String) : Option Nat :=
  match s.data with
  | [y1, y2, y3, y4, s1, m1, m2, s2, d1, d2] =>
    if s1 = '-' ∧ s2 = '-' ∧ [y1, y2, y3, y4, m1, m2, d1, d2].all Char.isDigit then
      mkDate (digitsToNat [y1, y2, y3, y4]) (digitsToNat [m1, m2]) (digitsToNat [d1, d2])
    else none
  | _ => none

/-- `strptime` with format `%Y%m%d`. -/
def parse_compact (s : String) : Option Nat :=
  match s.data with
  | [y1, y2, y3, y4, m1, m2, d1, d2] =>
    if [y1, y2, y3, y4, m1, m2, d1, d2].all Char.isDigit then
      mkDate (digitsToNat [y1, y2, y3, y4]) (digitsToNat [m1, m2]) (digitsToNat [d1, d2])
    else none
  | _ => none

/-- `_parse_date`: the ISO parse, null-filled with the compact parse. -/
def parse_date (s : String) : Option Nat :=
  (parse_iso s).orElse fun _ => parse_compact s

/-- `_parse_date` applied through a nullable column. -/
def parse_date_opt : Option String → Option Nat
  | none => none
  | some s => parse_date s

/-- `MAX_FOUNDER_GAP_DAYS` from `founder_analysis.py` (line 12). -/
def MAX_FOUNDER_GAP_DAYS : Int := 7

/-- `FOUNDER_WINDOW_DAYS` from `enrich_cnpj.py` (line 18). -/
def FOUNDER_WINDOW_DAYS : Int := 31

/-- The `diferenca_dias` column of `founder_analysis.py` (lines 99-103):
null when either date is null, otherwise the absolute day gap. -/
def diferenca_dias (assoc inicio : Option Nat) : Option Int :=
  match assoc, inicio with
  | some a, some i => some ((a : Int) - (i : Int)).natAbs
  | _, _ => none

/-- The `founder_condition` filter of `founder_analysis.py` (lines
105-110): gap non-null and within the window, and both dates non-null. -/
def founder_condition (assoc inicio : Option Nat) (max_gap_days : Int) : Bool :=
  (diferenca_dias assoc inicio).isSome
    && decide ((diferenca_dias assoc inicio).getD 0 ≤ max_gap_days)
    && inicio.isSome && assoc.isSome

/-! ## Relational infrastructure

List-of-rows embedding of the polars operations the pipeline uses:
left join, `group_by`/`agg`, and `unique`.  Polars' default join
semantics do not match null keys (`join_nulls=False`), which
`keyMatches` captures. -/

/-- Join-key comparison: null keys never match, not even each other. -/
def keyMatches {κ : Type} [DecidableEq κ] : Option κ → Option κ → Bool
  | some a, some b => a == b
  | _, _ => false

/-- Left join: each left row pairs with every matching right row, or with
a null right side when no right row matches. -/
def joinLeft {α β κ : Type} [DecidableEq κ] (left : List α) (right : List β)
    (lk : α → Option κ) (rk : β → Option κ) : List (α × Option β) :=
  left.flatMap fun l =>
    let ms := right.filter fun r => keyMatches (lk l) (rk r)
    if ms.isEmpty then [(l, none)] else ms.map fun r => (l, some r)

/-- `group_by`: one output row per distinct key, carrying the member
rows. -/
def groupBy {α κ : Type} [DecidableEq κ] (key : α → κ) (rows : List α) :
    List (κ × List α) :=
  ((rows.map key).dedup).map fun k => (k, rows.filter fun r => key r = k)

/-- polars `unique(subset=key)`: one row kept per distinct key (the
first, in input order). -/
def uniqueByKey {α κ : Type} [DecidableEq κ] (key : α → κ) : List α → List α
  | [] => []
  | a :: rest => a :: (uniqueByKey key rest).filter fun b => ¬ key b = key a

/-! ## The `mark_founders` pipeline

`mark_founders` from `src/etl/enrich_cnpj.py` (lines 113-328), with its
loaders `_load_socios_base` (lines 35-69) and `_load_empresas_base`
(lines 79-101).  A DataFrame is a list of rows together with the list of
column names actually present in the input frame (`cols`); a required
column missing from `cols` is treated as an all-null column, exactly as
the source adds `pl.lit(None)` columns for missing names. -/

/-- One row of the alumni DataFrame handed to `mark_founders`: the twelve
required columns plus `cpf_limpo`, all nullable. -/
structure PersonRow where
  id_pessoa : Option String
  matricula : Option String
  nome : Option String
  nome_norm : Option String
  idade : Option String
  faixa_etaria : Option String
  data_nascimento : Option String
  data_ingresso : Option String
  data_formacao : Option String
  ultimo_curso : Option String
  nivel : Option String
  codigo_curso : Option String
  cpf_limpo : Option String
deriving DecidableEq, Repr

/-- `required_cols` from `mark_founders` (lines 115-128). -/
def required_cols : List String :=
  [ "id_pessoa", "matricula", "nome", "nome_norm", "idade", "faixa_etaria"
  , "data_nascimento", "data_ingresso", "data_formacao", "ultimo_curso"
  , "nivel", "codigo_curso" ]

/-- Adding `pl.lit(None).alias(col)` for one missing column: the field of
that name becomes null in every row. -/
def nullifyCol (c : String) (r : PersonRow) : PersonRow :=
  if c = "id_pessoa" then { r with id_pessoa := none }
  else if c = "matricula" then { r with matricula := none }
  else if c = "nome" then { r with nome := none }
  else if c = "nome_norm" then { r with nome_norm := none }
  else if c = "idade" then { r with idade := none }
  else if c = "faixa_etaria" then { r with faixa_etaria := none }
  else if c = "data_nascimento" then { r with data_nascimento := none }
  else if c = "data_ingresso" then { r with data_ingresso := none }
  else if c = "data_formacao" then { r with data_formacao := none }
  else if c = "ultimo_curso" then { r with ultimo_curso := none }
  else if c = "nivel" then { r with nivel := none }
  else if c = "codigo_curso" then { r with codigo_curso := none }
  else r

/-- Lines 130-134 of `mark_founders`: every required column absent from
the frame is added as a null column (with a warning, not an error). -/
def fillMissingCols (cols : List String) (r : PersonRow) : PersonRow :=
  (required_cols.filter fun c => !cols.contains c).foldl (fun r c => nullifyCol c r) r

/-- One row of `socios.parquet` as read by `_load_socios_base`. -/
structure SocioRaw where
  cpf_fragment : Option String
  nome : Option String
  cnpj_basico : Option String
  data_entrada_sociedade : Option String
deriving DecidableEq, Repr

/-- `_load_socios_base`: `None` when the parquet is absent or no row has a
non-null non-empty `cpf_fragment`; otherwise normalize names, select the
`data_entrada_sociedade` column as `data_associacao` when the schema has
it (else null), deduplicate the selected rows, and group the
`(nome_norm, cnpj_basico, data_associacao)` structs by fragment. -/
def load_socios_base (raw : Option (List SocioRaw)) (hasDataCol : Bool) :
    Option (List (String × List SocioPair)) :=
  match raw with
  | none => none
  | some rows =>
    let socios := rows.filter fun r =>
      r.cpf_fragment.isSome && decide (r.cpf_fragment.getD "" ≠ "")
    if socios.isEmpty then none
    else
      let selected := socios.map fun r =>
        (r.cpf_fragment.getD "",
          ({ nome_norm := r.nome.map fun n => normalize_name (some n)
           , cnpj_basico := r.cnpj_basico
           , data_associacao := if hasDataCol then r.data_entrada_sociedade else none
           } : SocioPair))
      some ((groupBy Prod.fst selected.dedup).map fun g => (g.1, g.2.map Prod.snd))

/-- One row of `socios_empresas.parquet` as read by `_load_empresas_base`
and by `label_socios_fundadores`. -/
structure EmpresaRaw where
  cnpj_basico : Option String
  data_inicio_atividade : Option String
deriving DecidableEq, Repr

/-- `_load_empresas_base`: `None` when the parquet is absent, empty, or
holds no non-null non-empty `cnpj_basico`; otherwise parse the activity
start date and keep one row per `cnpj_basico`. -/
def load_empresas_base (raw : Option (List EmpresaRaw)) :
    Option (List (String × Option Nat)) :=
  match raw with
  | none => none
  | some rows =>
    if rows.isEmpty then none
    else
      let empresas := (rows.map fun r =>
          (r.cnpj_basico, parse_date_opt r.data_inicio_atividade)).filter fun p =>
        p.1.isSome && decide (p.1.getD "" ≠ "")
      if empresas.isEmpty then none
      else some (uniqueByKey Prod.fst (empresas.map fun p => (p.1.getD "", p.2)))

/-- Insertion of one element into an ascending list, for the polars
`.sort()` aggregation. -/
def insertSorted (x : Nat) : List Nat → List Nat
  | [] => [x]
  | y :: rest => if x ≤ y then x :: y :: rest else y :: insertSorted x rest

/-- Ascending sort (polars `Expr.sort`). -/
def sortNat (l : List Nat) : List Nat := l.foldr insertSorted []

/-- polars `explode` over two equally long list columns: one output row
per position, or a single all-null row when the lists are empty. -/
def explode2 {A B : Type} (xs : List A) (ys : List B) : List (Option A × Option B) :=
  if xs.isEmpty && ys.isEmpty then [(none, none)]
  else (xs.zip ys).map fun p => (some p.1, some p.2)

/-- A person row after the matching, date-parsing and founder stages of
`mark_founders` (the columns of its final `select`). -/
structure EnrichedRow where
  person : PersonRow
  socio_cpf : Bool
  socio_nome : Bool
  socio : Bool
  fundador : Bool
  cnpj_basico : List String
  data_associacao : List (Option String)
  datas_associacao : List (Option Nat)
  data_associacao_primeira : Option Nat
  datas_associacao_por_empresa : List (String × List Nat)
deriving DecidableEq, Repr

/-- Lines 139-149 of `mark_founders`: the all-false, all-empty flag set
used when no usable partner base exists. -/
def emptyFlagsRow (p : PersonRow) : EnrichedRow :=
  { person := p
  , socio_cpf := false, socio_nome := false, socio := false, fundador := false
  , cnpj_basico := [], data_associacao := [], datas_associacao := []
  , data_associacao_primeira := none, datas_associacao_por_empresa := [] }

/-- Lines 159-225 of `mark_founders` for one joined row: match columns
from `match_row`, element-wise date parsing of `data_associacao`, and the
earliest parsed association date.  `datas_associacao_por_empresa` and
`fundador` are filled by the later stages. -/
def enrich_row (score : String → String → Nat) (p : PersonRow)
    (socio_pairs : Option (List SocioPair)) : EnrichedRow :=
  let m := match_row score p.nome_norm socio_pairs
  let datas := if m.datas.length = 0 then [] else m.datas.map parse_date_opt
  { person := p
  , socio_cpf := m.socio_cpf, socio_nome := m.socio_nome, socio := m.socio
  , fundador := false
  , cnpj_basico := m.cnpjs, data_associacao := m.datas
  , datas_associacao := datas
  , data_associacao_primeira :=
      if datas.length = 0 then none else (datas.filterMap id).min?
  , datas_associacao_por_empresa := [] }

/-- One row of the exploded person-company association frame
(lines 227-236). -/
structure AssocRow where
  id_pessoa : Option String
  cnpj : Option String
  data : Option Nat
deriving DecidableEq, Repr

/-- Lines 227-236: explode `(cnpj_basico, datas_associacao)` and keep rows
with a non-null non-empty cnpj and a non-null parsed date. -/
def assoc_filtered (rows : List EnrichedRow) : List AssocRow :=
  (rows.flatMap fun r =>
    (explode2 r.cnpj_basico r.datas_associacao).map fun p =>
      ({ id_pessoa := r.person.id_pessoa, cnpj := p.1, data := p.2.join } : AssocRow)).filter
    fun a => a.cnpj.isSome && decide (a.cnpj.getD "" ≠ "") && a.data.isSome

/-- Lines 240-248: group the filtered associations by (person, company)
with the dates sorted ascending, then regroup the structs per person. -/
def assoc_grouped (rows : List EnrichedRow) :
    List (Option String × List (String × List Nat)) :=
  let byPair := groupBy (fun a => (a.id_pessoa, a.cnpj.getD "")) (assoc_filtered rows)
  let structs := byPair.map fun g =>
    (g.1.1, (g.1.2, sortNat (g.2.filterMap fun a => a.data)))
  (groupBy Prod.fst structs).map fun g => (g.1, g.2.map Prod.snd)

/-- Lines 237-254: attach `datas_associacao_por_empresa` by a left join on
`id_pessoa` (empty list when the join misses or the frame is empty). -/
def apply_assoc (rows : List EnrichedRow) : List EnrichedRow :=
  if (assoc_filtered rows).isEmpty then
    rows.map fun r => { r with datas_associacao_por_empresa := [] }
  else
    (joinLeft rows (assoc_grouped rows) (fun r => r.person.id_pessoa) Prod.fst).map
      fun p => { p.1 with datas_associacao_por_empresa := (p.2.map Prod.snd).getD [] }

/-- One row of the exploded founder-candidate frame of `mark_founders`
(lines 260-270), also the shape of `socios_long` in
`label_socios_fundadores`. -/
structure FounderCand where
  id_pessoa : Option String
  socio : Bool
  cnpj : Option String
  data_associacao : Option String
deriving DecidableEq, Repr

/-- Lines 260-270: explode `(cnpj_basico, data_associacao)` and keep the
rows of partners (`socio`) with non-null non-empty cnpj and association
date. -/
def founder_candidates (rows : List EnrichedRow) : List FounderCand :=
  (rows.flatMap fun r =>
    (explode2 r.cnpj_basico r.data_associacao).map fun p =>
      ({ id_pessoa := r.person.id_pessoa, socio := r.socio
       , cnpj := p.1, data_associacao := p.2.join } : FounderCand)).filter
    fun c => c.socio && c.cnpj.isSome && decide (c.cnpj.getD "" ≠ "")
      && c.data_associacao.isSome && decide (c.data_associacao.getD "" ≠ "")

/-- Lines 256-302: the `fundador` flag.  Candidates joined with the
company base on `cnpj_basico`; a person is a founder when some candidate
relation has both dates and an absolute gap of at most
`FOUNDER_WINDOW_DAYS`; everything degrades to `false` when the company
base, the candidate set or the match set is empty. -/
def apply_founder (rows : List EnrichedRow)
    (empresasOpt : Option (List (String × Option Nat))) : List EnrichedRow :=
  match empresasOpt with
  | none => rows.map fun r => { r with fundador := false }
  | some empresas =>
    let cands := founder_candidates rows
    if cands.isEmpty then rows.map fun r => { r with fundador := false }
    else
      let withDate := cands.map fun c => (c, parse_date_opt c.data_associacao)
      let joined := joinLeft withDate empresas
        (fun p => some (p.1.cnpj.getD "")) (fun e => some e.1)
      let founder_matches := ((joined.filter fun p =>
          let inicio := p.2.bind Prod.snd
          let assoc := p.1.2
          inicio.isSome && assoc.isSome &&
            decide ((((assoc.getD 0 : Nat) : Int) - ((inicio.getD 0 : Nat) : Int)).natAbs
              ≤ FOUNDER_WINDOW_DAYS)).map fun p => p.1.1.id_pessoa).dedup
      if founder_matches.isEmpty then rows.map fun r => { r with fundador := false }
      else
        (joinLeft rows founder_matches (fun r => r.person.id_pessoa) id).map
          fun p => { p.1 with fundador := p.2.isSome }

/-- `mark_founders` (lines 113-328).  Inputs: the similarity scorer, the
alumni frame with the list of its column names, the partner parquet
(`None` when the file is absent, with a flag for the optional
`data_entrada_sociedade` column) and the company parquet.  The only error
is polars' `ColumnNotFoundError` when `cpf_limpo` is referenced while
absent (line 152); everything else degrades per row. -/
def mark_founders (score : String → String → Nat) (cols : List String)
    (df : List PersonRow) (sociosRaw : Option (List SocioRaw)) (hasDataCol : Bool)
    (empresasRaw : Option (List EmpresaRaw)) : Except String (List EnrichedRow) :=
  let df := df.map (fillMissingCols cols)
  match load_socios_base sociosRaw hasDataCol with
  | none => .ok (df.map emptyFlagsRow)
  | some socios =>
    if !cols.contains "cpf_limpo" then .error "ColumnNotFoundError: cpf_limpo"
    else
      let withFrag := df.map fun p =>
        (p, p.cpf_limpo.map fun v => middle_cpf_fragment (some v))
      let joined := joinLeft withFrag socios (fun p => p.2) (fun g => some g.1)
      let enriched := joined.map fun p => enrich_row score p.1.1 (p.2.map Prod.snd)
      .ok (apply_founder (apply_assoc enriched) (load_empresas_base empresasRaw))

/-! ## The `label_socios_fundadores` pipeline

`label_socios_fundadores` from `src/etl/founder_analysis.py`
(lines 23-182). -/

/-- One row of the egressos parquet as used by
`label_socios_fundadores`. -/
structure EgRow where
  id_pessoa : Option String
  socio : Bool
  cnpj_basico : List (Option String)
  data_associacao : List (Option String)
deriving DecidableEq, Repr

/-- The `required_cols` set of `label_socios_fundadores` (line 44). -/
def label_required_cols : List String :=
  ["id_pessoa", "socio", "cnpj_basico", "data_associacao"]

/-- One founder relation struct (lines 112-135). -/
structure FundRel where
  cnpj_basico : String
  data_associacao : Option Nat
  data_inicio_atividade : Option Nat
  diferenca_dias : Option Int
deriving DecidableEq, Repr

/-- The three columns `label_socios_fundadores` adds. -/
structure FundCols where
  fundador_relacoes : List FundRel
  cnpj_fundador : List String
  socio_fundador : Bool
deriving DecidableEq, Repr

/-- The empty founder columns (lines 85-89 and 140-144). -/
def emptyFundCols : FundCols :=
  { fundador_relacoes := [], cnpj_fundador := [], socio_fundador := false }

/-- A joined relation row (lines 98-103) with the `diferenca_dias`
column. -/
structure JoinedRel where
  id_pessoa : Option String
  cnpj : String
  data_associacao_date : Option Nat
  data_inicio_atividade_date : Option Nat
  diferenca_dias : Option Int
deriving DecidableEq, Repr

/-- `label_socios_fundadores`: `ValueError` on a negative window and on
missing required columns; otherwise explode the associations, keep
partner rows with usable values, join the company base, filter by
`founder_condition` and join the per-person aggregates back (one output
row per input egresso row). -/
def label_socios_fundadores (cols : List String) (egressos : List EgRow)
    (empresas : List EmpresaRaw) (max_gap_days : Int := MAX_FOUNDER_GAP_DAYS) :
    Except String (List (EgRow × FundCols)) :=
  if max_gap_days < 0 then .error "max_gap_days deve ser nao negativo"
  else if !(label_required_cols.all fun c => cols.contains c) then
    .error "Colunas necessarias ausentes no parquet de egressos"
  else
    let empresasP := empresas.map fun e =>
      (e.cnpj_basico, parse_date_opt e.data_inicio_atividade)
    let socios_long := (egressos.flatMap fun r =>
      (explode2 r.cnpj_basico r.data_associacao).map fun p =>
        ({ id_pessoa := r.id_pessoa, socio := r.socio
         , cnpj := p.1.join, data_associacao := p.2.join } : FounderCand)).filter
      fun c => c.socio && c.cnpj.isSome && decide (c.cnpj.getD "" ≠ "")
        && c.data_associacao.isSome && decide (c.data_associacao.getD "" ≠ "")
    if socios_long.isEmpty then .ok (egressos.map fun e => (e, emptyFundCols))
    else
      let withDate := socios_long.map fun c => (c, parse_date_opt c.data_associacao)
      let joined := joinLeft withDate empresasP
        (fun p => some (p.1.cnpj.getD "")) Prod.fst
      let withDiff := joined.map fun p =>
        ({ id_pessoa := p.1.1.id_pessoa
         , cnpj := p.1.1.cnpj.getD ""
         , data_associacao_date := p.1.2
         , data_inicio_atividade_date := p.2.bind Prod.snd
         , diferenca_dias := diferenca_dias p.1.2 (p.2.bind Prod.snd) } : JoinedRel)
      let founder_rows := withDiff.filter fun j =>
        founder_condition j.data_associacao_date j.data_inicio_atividade_date max_gap_days
      let founders := (groupBy (fun j => j.id_pessoa) founder_rows).map fun g =>
        (g.1, g.2.map fun j =>
          ({ cnpj_basico := j.cnpj
           , data_associacao := j.data_associacao_date
           , data_inicio_atividade := j.data_inicio_atividade_date
           , diferenca_dias := j.diferenca_dias } : FundRel))
      if founders.isEmpty then .ok (egressos.map fun e => (e, emptyFundCols))
      else
        let foundersCols := founders.map fun g =>
          (g.1, ({ fundador_relacoes := g.2
                 , cnpj_fundador := g.2.filterMap fun rel =>
                     if rel.cnpj_basico ≠ "" then some rel.cnpj_basico else none
                 , socio_fundador := decide (0 < g.2.length) } : FundCols))
        .ok ((joinLeft egressos foundersCols (fun e => e.id_pessoa) Prod.fst).map
          fun p => (p.1, (p.2.map Prod.snd).getD emptyFundCols))

/-! ## Sample data

Concrete rows used by witnesses and counterexamples. -/

/-- A sample alumni row with a full 11-digit cleaned tax id. -/
def samplePerson : PersonRow :=
  { id_pessoa := some "p1", matricula := none, nome := some "Maria Silva"
  , nome_norm := some "MARIA SILVA", idade := none, faixa_etaria := none
  , data_nascimento := none, data_ingresso := none, data_formacao := none
  , ultimo_curso := none, nivel := none, codigo_curso := none
  , cpf_limpo := some "12345678901" }

/-- A sample partner record sharing `samplePerson`'s fragment and name. -/
def sampleSocioRaw : SocioRaw :=
  { cpf_fragment := some "456789", nome := some "Maria  Silva"
  , cnpj_basico := some "C1", data_entrada_sociedade := some "2020-01-08" }

/-- A sample company record for `C1`. -/
def sampleEmpresa : EmpresaRaw :=
  { cnpj_basico := some "C1", data_inicio_atividade := some "2020-01-01" }

/-- A complete column list for the alumni frame. -/
def sampleCols : List String := required_cols ++ ["cpf_limpo"]

/-- The same column list with the required column `nome` missing. -/
def sampleColsNoNome : List String := sampleCols.filter fun c => c ≠ "nome"

/-- A sample egressos row for the founder-labeling stage. -/
def sampleEgresso : EgRow :=
  { id_pessoa := some "p1", socio := true
  , cnpj_basico := [some "C1"], data_associacao := [some "2020-01-08"] }

/-- The shape `re.sub(r"\s+", " ", ...)` leaves behind: every whitespace
character is a single space and no two whitespace characters are
adjacent. -/
def wsNormalized : List Char → Bool
  | [] => true
  | [c] => !isWs c || c == ' '
  | c :: d :: rest => (!isWs c || (c == ' ' && !isWs d)) && wsNormalized (d :: rest)

/-! ### Idempotence of the normalizer -/

theorem lookupAssoc_mem {β : Type} {t : List (Char × β)} {c : Char} {v : β}
    (h : lookupAssoc t c = some v) : (c, v) ∈ t := by
  induction t with
  | nil => simp [lookupAssoc] at h
  | cons p rest ih =>
    obtain ⟨k, w⟩ := p
    by_cases hc : c = k
    · subst hc
      simp [lookupAssoc] at h
      simp [h]
    · simp [lookupAssoc, hc] at h
      exact List.mem_cons_of_mem _ (ih h)

theorem uniChar_ascii {c d : Char} (h : d ∈ uniChar c) : d.toNat < 128 := by
  unfold uniChar at h
  by_cases hc : c.toNat < 128
  · simp [hc] at h; simpa [h] using hc
  · simp [hc] at h
    cases hl : lookupAssoc uniTable c with
    | none => simp [hl] at h
    | some v =>
      have hv : (c, v) ∈ uniTable := lookupAssoc_mem hl
      have htab : ∀ p ∈ uniTable, ∀ d ∈ p.2, d.toNat < 128 := by decide
      exact htab _ hv d (by simpa [hl] using h)

theorem uniChar_of_ascii {c : Char} (h : c.toNat < 128) : uniChar c = [c] := by
  simp [uniChar, h]

theorem uniStr_ascii {l : List Char} {d : Char} (h : d ∈ uniStr l) : d.toNat < 128 := by
  unfold uniStr at h
  obtain ⟨c, -, hd⟩ := List.exists_of_mem_flatMap h
  exact uniChar_ascii hd

theorem uniStr_of_ascii {l : List Char} (h : ∀ d ∈ l, d.toNat < 128) :
    uniStr l = l := by
  induction l with
  | nil => rfl
  | cons c rest ih =>
    have hc : c.toNat < 128 := h c (List.mem_cons_self ..)
    have hr := ih fun d hd => h d (List.mem_cons_of_mem _ hd)
    simp only [uniStr, List.flatMap_cons] at *
    rw [uniChar_of_ascii hc, hr]
    rfl

theorem upperChar_props :
    ∀ p ∈ lowercaseTable, p.2.toNat < 128 ∧ isWs p.1 = false ∧ isWs p.2 = false ∧
      lookupAssoc lowercaseTable p.2 = none := by decide

theorem upperChar_ascii {c : Char} (h : c.toNat < 128) : (upperChar c).toNat < 128 := by
  unfold upperChar
  cases hl : lookupAssoc lowercaseTable c with
  | none => simpa using h
  | some v => simpa using (upperChar_props _ (lookupAssoc_mem hl)).1

theorem isWs_upperChar (c : Char) : isWs (upperChar c) = isWs c := by
  unfold upperChar
  cases hl : lookupAssoc lowercaseTable c with
  | none => rfl
  | some v =>
    have hp := upperChar_props _ (lookupAssoc_mem hl)
    simp [hp.2.1, hp.2.2.1]

theorem upperChar_idem (c : Char) : upperChar (upperChar c) = upperChar c := by
  unfold upperChar
  cases hl : lookupAssoc lowercaseTable c with
  | none => simp [hl]
  | some v =>
    have hp := upperChar_props _ (lookupAssoc_mem hl)
    simp [hp.2.2.2]

theorem upperChar_of_ws {c : Char} (h : isWs c = true) : upperChar c = c := by
  unfold upperChar
  cases hl : lookupAssoc lowercaseTable c with
  | none => rfl
  | some v =>
    have hp := upperChar_props _ (lookupAssoc_mem hl)
    rw [hp.2.1] at h
    exact absurd h (by simp)

theorem dropWhile_head_false {p : Char → Bool} {l : List Char} {c : Char}
    (h : (l.dropWhile p).head? = some c) : p c = false := by
  induction l with
  | nil => simp [List.dropWhile] at h
  | cons a rest ih =>
    rw [List.dropWhile_cons] at h
    by_cases ha : p a
    · exact ih (by simpa [ha] using h)
    · simp [ha] at h
      simpa [← h] using ha

theorem dropWhile_getLast_eq {p : Char → Bool} {l : List Char}
    (h : l.dropWhile p ≠ []) : (l.dropWhile p).getLast? = l.getLast? := by
  induction l with
  | nil => simp [List.dropWhile] at h
  | cons a rest ih =>
    rw [List.dropWhile_cons]
    by_cases ha : p a
    · rw [List.dropWhile_cons, if_pos ha] at h
      have hrest : rest ≠ [] := by
        intro hr; subst hr; simp [List.dropWhile] at h
      obtain ⟨b, r, hbr⟩ := List.exists_cons_of_ne_nil hrest
      subst hbr
      rw [if_pos ha, ih h, List.getLast?_cons_cons]
    · rw [if_neg ha]

theorem dropWhile_eq_self {l : List Char}
    (h : ∀ d, l.head? = some d → isWs d = false) : l.dropWhile isWs = l := by
  cases l with
  | nil => rfl
  | cons c rest => rw [List.dropWhile_cons, if_neg (by simp [h c rfl])]

theorem pyStrip_head {l : List Char} {c : Char}
    (h : (pyStrip l).head? = some c) : isWs c = false := by
  unfold pyStrip at h
  rw [List.head?_reverse, dropWhile_getLast_eq, List.getLast?_reverse] at h
  · exact dropWhile_head_false h
  · intro hnil
    rw [hnil] at h
    simp at h

theorem pyStrip_getLast {l : List Char} {c : Char}
    (h : (pyStrip l).getLast? = some c) : isWs c = false := by
  unfold pyStrip at h
  rw [List.getLast?_reverse] at h
  exact dropWhile_head_false h

theorem pyStrip_subset {l : List Char} {d : Char} (h : d ∈ pyStrip l) : d ∈ l := by
  unfold pyStrip at h
  rw [List.mem_reverse] at h
  have h1 := (List.dropWhile_sublist (l := (l.dropWhile isWs).reverse) isWs).mem h
  rw [List.mem_reverse] at h1
  exact (List.dropWhile_sublist isWs).mem h1

theorem pyStrip_fixed {l : List Char}
    (hh : ∀ d, l.head? = some d → isWs d = false)
    (hl : ∀ d, l.getLast? = some d → isWs d = false) : pyStrip l = l := by
  unfold pyStrip
  rw [dropWhile_eq_self hh, dropWhile_eq_self, List.reverse_reverse]
  intro d hd
  rw [List.head?_reverse] at hd
  exact hl d hd

theorem collapseAux_nil (b : Bool) : collapseAux [] b = [] := by
  cases b <;> rfl

theorem collapseAux_cons_ws_true {c : Char} {rest : List Char} (hc : isWs c = true) :
    collapseAux (c :: rest) true = collapseAux rest true := by
  simp only [collapseAux, hc, if_true]

theorem collapseAux_cons_ws_false {c : Char} {rest : List Char} (hc : isWs c = true) :
    collapseAux (c :: rest) false = ' ' :: collapseAux rest true := by
  simp only [collapseAux, hc, if_true]

theorem collapseAux_cons_nws {c : Char} {rest : List Char} (hc : isWs c = false) (b : Bool) :
    collapseAux (c :: rest) b = c :: collapseAux rest false := by
  cases b <;> simp only [collapseAux, hc, Bool.false_eq_true, if_false]

/-- Characters of the collapsed list come from the input, except for the
spaces substituted for whitespace runs. -/
theorem collapseAux_mem {l : List Char} {b : Bool} {d : Char}
    (h : d ∈ collapseAux l b) : d = ' ' ∨ d ∈ l := by
  induction l generalizing b with
  | nil => rw [collapseAux_nil] at h; simp at h
  | cons c rest ih =>
    by_cases hc : isWs c
    · cases b with
      | true =>
        rw [collapseAux_cons_ws_true hc] at h
        rcases ih h with h2 | h2
        · exact Or.inl h2
        · exact Or.inr (List.mem_cons_of_mem _ h2)
      | false =>
        rw [collapseAux_cons_ws_false hc] at h
        rcases List.mem_cons.mp h with h1 | h1
        · exact Or.inl h1
        · rcases ih h1 with h2 | h2
          · exact Or.inl h2
          · exact Or.inr (List.mem_cons_of_mem _ h2)
    · rw [collapseAux_cons_nws (by simpa using hc)] at h
      rcases List.mem_cons.mp h with h1 | h1
      · exact Or.inr (by simp [h1])
      · rcases ih h1 with h2 | h2
        · exact Or.inl h2
        · exact Or.inr (List.mem_cons_of_mem _ h2)

theorem collapseAux_true_head {l : List Char} {c : Char}
    (h : (collapseAux l true).head? = some c) : isWs c = false := by
  induction l with
  | nil => rw [collapseAux_nil] at h; simp at h
  | cons a rest ih =>
    by_cases ha : isWs a
    · rw [collapseAux_cons_ws_true ha] at h
      exact ih h
    · have ha' : isWs a = false := by simpa using ha
      rw [collapseAux_cons_nws ha', List.head?_cons, Option.some.injEq] at h
      rw [← h]
      exact ha'

theorem collapseAux_ne_nil {l : List Char} {b : Bool} {w : Char}
    (hw : w ∈ l) (hws : isWs w = false) : collapseAux l b ≠ [] := by
  induction l generalizing b with
  | nil => simp at hw
  | cons c rest ih =>
    by_cases hc : isWs c
    · have hwr : w ∈ rest := by
        rcases List.mem_cons.mp hw with h1 | h1
        · subst h1; rw [hc] at hws; simp at hws
        · exact h1
      cases b with
      | true => rw [collapseAux_cons_ws_true hc]; exact ih hwr
      | false => rw [collapseAux_cons_ws_false hc]; simp
    · rw [collapseAux_cons_nws (by simpa using hc)]; simp

theorem collapseAux_getLast {l : List Char} {b : Bool} {c : Char}
    (hl : ∀ d, l.getLast? = some d → isWs d = false)
    (h : (collapseAux l b).getLast? = some c) : isWs c = false := by
  induction l generalizing b with
  | nil => rw [collapseAux_nil] at h; simp at h
  | cons a rest ih =>
    cases rest with
    | nil =>
      have ha : isWs a = false := hl a rfl
      rw [collapseAux_cons_nws ha, collapseAux_nil, List.getLast?_singleton,
        Option.some.injEq] at h
      rw [← h]
      exact ha
    | cons e r =>
      have hl' : ∀ d, (e :: r).getLast? = some d → isWs d = false := by
        intro d hd
        exact hl d (by rwa [List.getLast?_cons_cons])
      obtain ⟨w, hwlast⟩ : ∃ w, (e :: r).getLast? = some w := by
        cases hg : (e :: r).getLast? with
        | none => simp [List.getLast?_eq_none_iff] at hg
        | some w => exact ⟨w, rfl⟩
      have hwws : isWs w = false := hl' w hwlast
      have hwmem : w ∈ e :: r := List.mem_of_mem_getLast? hwlast
      by_cases ha : isWs a
      · cases b with
        | true =>
          rw [collapseAux_cons_ws_true ha] at h
          exact ih hl' h
        | false =>
          rw [collapseAux_cons_ws_false ha] at h
          have hne : collapseAux (e :: r) true ≠ [] := collapseAux_ne_nil hwmem hwws
          obtain ⟨x, xs, hx⟩ := List.exists_cons_of_ne_nil hne
          rw [hx, List.getLast?_cons_cons] at h
          exact ih hl' (by rwa [hx])
      · rw [collapseAux_cons_nws (by simpa using ha)] at h
        have hne : collapseAux (e :: r) false ≠ [] := collapseAux_ne_nil hwmem hwws
        obtain ⟨x, xs, hx⟩ := List.exists_cons_of_ne_nil hne
        rw [hx, List.getLast?_cons_cons] at h
        exact ih hl' (by rwa [hx])

theorem wsNormalized_cons_nws {c : Char} {X : List Char} (hc : isWs c = false)
    (hX : wsNormalized X = true) : wsNormalized (c :: X) = true := by
  cases X with
  | nil => simp [wsNormalized, hc]
  | cons d r => simp [wsNormalized, hc, hX]

theorem wsNormalized_cons_space {X : List Char} (hX : wsNormalized X = true)
    (hhd : ∀ d, X.head? = some d → isWs d = false) : wsNormalized (' ' :: X) = true := by
  cases X with
  | nil => simp [wsNormalized]
  | cons d r =>
    have hd : isWs d = false := hhd d rfl
    simp [wsNormalized, hd, hX]

theorem wsNormalized_tail {c : Char} {X : List Char}
    (h : wsNormalized (c :: X) = true) : wsNormalized X = true := by
  cases X with
  | nil => rfl
  | cons d r =>
    simp only [wsNormalized, Bool.and_eq_true] at h
    exact h.2

theorem collapseAux_wsNormalized (l : List Char) (b : Bool) :
    wsNormalized (collapseAux l b) = true := by
  induction l generalizing b with
  | nil => rw [collapseAux_nil]; rfl
  | cons c rest ih =>
    by_cases hc : isWs c
    · cases b with
      | true => rw [collapseAux_cons_ws_true hc]; exact ih _
      | false =>
        rw [collapseAux_cons_ws_false hc]
        exact wsNormalized_cons_space (ih _) fun d hd => collapseAux_true_head hd
    · rw [collapseAux_cons_nws (by simpa using hc)]
      exact wsNormalized_cons_nws (by simpa using hc) (ih _)

/-- A list already in collapsed shape is a fixed point of the collapsing
pass (started outside a whitespace run, or with a non-whitespace head). -/
theorem collapseAux_fixed : ∀ (l : List Char) (b : Bool), wsNormalized l = true →
    (b = true → ∀ d, l.head? = some d → isWs d = false) → collapseAux l b = l := by
  intro l
  induction l with
  | nil => intro b _ _; rw [collapseAux_nil]
  | cons c rest ih =>
    intro b hn hb
    by_cases hc : isWs c
    · cases b with
      | true =>
        have := hb rfl c rfl
        rw [hc] at this
        simp at this
      | false =>
        have hsp : c = ' ' := by
          cases rest with
          | nil => simpa [wsNormalized, hc] using hn
          | cons d r =>
            simp only [wsNormalized, Bool.and_eq_true, hc, Bool.not_true,
              Bool.false_or, Bool.and_eq_true, beq_iff_eq] at hn
            exact hn.1.1
        have hrest : ∀ d, rest.head? = some d → isWs d = false := by
          intro d hd
          cases rest with
          | nil => simp at hd
          | cons e r =>
            simp only [List.head?_cons, Option.some.injEq] at hd
            subst hd
            simp only [wsNormalized, Bool.and_eq_true, hc, Bool.not_true,
              Bool.false_or, Bool.and_eq_true, beq_iff_eq] at hn
            simpa using hn.1.2
        rw [collapseAux_cons_ws_false hc,
          ih true (wsNormalized_tail hn) (fun _ => hrest), hsp]
    · have hc' : isWs c = false := by simpa using hc
      rw [collapseAux_cons_nws hc',
        ih false (wsNormalized_tail hn) (by intro h; cases h)]

theorem wsNormalized_map_upper : ∀ {l : List Char}, wsNormalized l = true →
    wsNormalized (l.map upperChar) = true
  | [], _ => rfl
  | [c], h => by
    simp only [List.map_cons, List.map_nil]
    simp only [wsNormalized, Bool.or_eq_true, Bool.not_eq_true', beq_iff_eq] at h ⊢
    rw [isWs_upperChar]
    rcases h with h | h
    · exact Or.inl h
    · subst h
      exact Or.inr (by decide)
  | c :: d :: rest, h => by
    simp only [wsNormalized, Bool.and_eq_true] at h
    have hrec := wsNormalized_map_upper (l := d :: rest) h.2
    simp only [List.map_cons] at hrec ⊢
    simp only [wsNormalized, Bool.and_eq_true]
    refine ⟨?_, hrec⟩
    simp only [Bool.or_eq_true, Bool.not_eq_true', Bool.and_eq_true, beq_iff_eq] at h ⊢
    rw [isWs_upperChar, isWs_upperChar]
    rcases h.1 with h1 | ⟨h1, h2⟩
    · exact Or.inl h1
    · subst h1
      exact Or.inr ⟨by decide, h2⟩

theorem pyCollapse_head {l : List Char} (hh : ∀ d, l.head? = some d → isWs d = false) :
    ∀ d, (pyCollapse l).head? = some d → isWs d = false := by
  intro d hd
  cases l with
  | nil =>
    unfold pyCollapse at hd
    rw [collapseAux_nil] at hd
    simp at hd
  | cons c rest =>
    have hc : isWs c = false := hh c rfl
    unfold pyCollapse at hd
    rw [collapseAux_cons_nws hc, List.head?_cons, Option.some.injEq] at hd
    rw [← hd]
    exact hc

/-- Any list that is ASCII, whitespace-collapsed, edge-trimmed and
upper-cased is a fixed point of the whole normalization chain. -/
theorem normalize_fix {t : List Char}
    (hascii : ∀ d ∈ t, d.toNat < 128)
    (hhead : ∀ d, t.head? = some d → isWs d = false)
    (hlast : ∀ d, t.getLast? = some d → isWs d = false)
    (hwn : wsNormalized t = true)
    (hup : t.map upperChar = t) :
    (pyCollapse (pyStrip (uniStr t))).map upperChar = t := by
  rw [uniStr_of_ascii hascii, pyStrip_fixed hhead hlast]
  show (collapseAux t false).map upperChar = t
  rw [collapseAux_fixed t false hwn (by intro h; cases h), hup]

/-- Idempotence of `normalize_name` on every input string. -/
theorem normalize_name_idem (s : String) :
    normalize_name (some (normalize_name (some s))) = normalize_name (some s) := by
  show (⟨(pyCollapse (pyStrip (uniStr
      ((pyCollapse (pyStrip (uniStr s.data))).map upperChar)))).map upperChar⟩ : String)
    = ⟨(pyCollapse (pyStrip (uniStr s.data))).map upperChar⟩
  refine congrArg String.mk ?_
  have hasciiU : ∀ d ∈ pyCollapse (pyStrip (uniStr s.data)), d.toNat < 128 := by
    intro d hd
    rcases collapseAux_mem hd with h1 | h1
    · rw [h1]; decide
    · exact uniStr_ascii (pyStrip_subset h1)
  have hasciiT : ∀ d ∈ (pyCollapse (pyStrip (uniStr s.data))).map upperChar,
      d.toNat < 128 := by
    intro d hd
    obtain ⟨e, he, rfl⟩ := List.mem_map.mp hd
    exact upperChar_ascii (hasciiU e he)
  have hheadU : ∀ d, (pyCollapse (pyStrip (uniStr s.data))).head? = some d →
      isWs d = false :=
    pyCollapse_head fun d hd => pyStrip_head hd
  have hlastU : ∀ d, (pyCollapse (pyStrip (uniStr s.data))).getLast? = some d →
      isWs d = false :=
    fun d hd => collapseAux_getLast (fun e he => pyStrip_getLast he) hd
  have hheadT : ∀ d, ((pyCollapse (pyStrip (uniStr s.data))).map upperChar).head? = some d →
      isWs d = false := by
    intro d hd
    rw [List.head?_map] at hd
    cases hu : (pyCollapse (pyStrip (uniStr s.data))).head? with
    | none => rw [hu] at hd; simp at hd
    | some e =>
      rw [hu] at hd
      simp only [Option.map_some', Option.some.injEq] at hd
      rw [← hd, isWs_upperChar]
      exact hheadU e hu
  have hlastT : ∀ d, ((pyCollapse (pyStrip (uniStr s.data))).map upperChar).getLast? = some d →
      isWs d = false := by
    intro d hd
    rw [List.getLast?_map] at hd
    cases hu : (pyCollapse (pyStrip (uniStr s.data))).getLast? with
    | none => rw [hu] at hd; simp at hd
    | some e =>
      rw [hu] at hd
      simp only [Option.map_some', Option.some.injEq] at hd
      rw [← hd, isWs_upperChar]
      exact hlastU e hu
  have hwnT : wsNormalized ((pyCollapse (pyStrip (uniStr s.data))).map upperChar) = true :=
    wsNormalized_map_upper (collapseAux_wsNormalized _ _)
  have hupT : ((pyCollapse (pyStrip (uniStr s.data))).map upperChar).map upperChar
      = (pyCollapse (pyStrip (uniStr s.data))).map upperChar := by
    rw [List.map_map]
    exact List.map_congr_left fun a _ => upperChar_idem a
  exact normalize_fix hasciiT hheadT hlastT hwnT hupT

theorem groupBy_keys_nodup {α κ : Type} [DecidableEq κ] (key : α → κ) (rows : List α) :
    ((groupBy key rows).map Prod.fst).Nodup := by
  unfold groupBy
  rw [List.map_map]
  have hid : (Prod.fst ∘ fun k => (k, rows.filter fun r => key r = k)) = id := rfl
  rw [hid, List.map_id]
  exact List.nodup_dedup _

theorem uniqueByKey_keys_nodup {α κ : Type} [DecidableEq κ] (key : α → κ) :
    ∀ rows : List α, ((uniqueByKey key rows).map key).Nodup := by
  intro rows
  induction rows with
  | nil => simp [uniqueByKey]
  | cons a rest ih =>
    rw [uniqueByKey]
    simp only [List.map_cons, List.nodup_cons]
    constructor
    · intro hmem
      obtain ⟨b, hb, hkb⟩ := List.mem_map.mp hmem
      have hne : ¬ key b = key a := by simpa using (List.mem_filter.mp hb).2
      exact hne hkb
    · exact ((List.filter_sublist _).map key).nodup ih

theorem filter_keyMatches_length_le_one {β κ : Type} [DecidableEq κ]
    (right : List β) (rk : β → Option κ) (hnd : (right.map rk).Nodup)
    (k : Option κ) :
    (right.filter fun r => keyMatches k (rk r)).length ≤ 1 := by
  cases k with
  | none =>
    have : (right.filter fun r => keyMatches none (rk r)) = [] := by
      apply List.filter_eq_nil_iff.mpr
      intro r _
      simp [keyMatches]
    simp [this]
  | some x =>
    induction right with
    | nil => simp
    | cons r rest ih =>
      rw [List.map_cons, List.nodup_cons] at hnd
      rw [List.filter_cons]
      by_cases hm : keyMatches (some x) (rk r)
      · have hrk : rk r = some x := by
          cases hr : rk r with
          | none => rw [hr] at hm; simp [keyMatches] at hm
          | some y =>
            rw [hr] at hm
            simp only [keyMatches, beq_iff_eq] at hm
            exact congrArg some hm.symm
        have hrest : (rest.filter fun b => keyMatches (some x) (rk b)) = [] := by
          apply List.filter_eq_nil_iff.mpr
          intro b hbmem hbm
          have hrkb : rk b = some x := by
            cases hb : rk b with
            | none => rw [hb] at hbm; simp [keyMatches] at hbm
            | some y =>
              rw [hb] at hbm
              simp only [keyMatches, beq_iff_eq] at hbm
              exact congrArg some hbm.symm
          exact hnd.1 (by rw [← hrk, ← hrkb] at *; exact List.mem_map_of_mem rk hbmem)
        simp [hm, hrest]
      · simp only [hm, if_false]
        exact ih hnd.2

theorem joinLeft_length {α β κ : Type} [DecidableEq κ] (left : List α) (right : List β)
    (lk : α → Option κ) (rk : β → Option κ) (hnd : (right.map rk).Nodup) :
    (joinLeft left right lk rk).length = left.length := by
  induction left with
  | nil => rfl
  | cons l rest ih =>
    unfold joinLeft at ih ⊢
    rw [List.flatMap_cons, List.length_append, ih, List.length_cons]
    have hle := filter_keyMatches_length_le_one right rk hnd (lk l)
    by_cases he : (right.filter fun r => keyMatches (lk l) (rk r)).isEmpty
    · simp [he, Nat.add_comm]
    · have hne : (right.filter fun r => keyMatches (lk l) (rk r)) ≠ [] := by
        simpa [List.isEmpty_iff] using he
      have h1 : 1 ≤ (right.filter fun r => keyMatches (lk l) (rk r)).length :=
        Nat.one_le_iff_ne_zero.mpr (by simpa [List.length_eq_zero] using hne)
      simp only [he, Bool.false_eq_true, if_false, List.length_map]
      omega

theorem joinLeft_fst_mem {α β κ : Type} [DecidableEq κ] {left : List α} {right : List β}
    {lk : α → Option κ} {rk : β → Option κ} {p : α × Option β}
    (h : p ∈ joinLeft left right lk rk) : p.1 ∈ left := by
  unfold joinLeft at h
  obtain ⟨l, hl, hp⟩ := List.exists_of_mem_flatMap h
  dsimp only at hp
  split at hp
  · rcases List.mem_singleton.mp hp with rfl
    exact hl
  · obtain ⟨r, _, hr⟩ := List.mem_map.mp hp
    rw [← hr]
    exact hl

/-! ## Helper equations for the matcher -/

theorem match_row_socio_cpf (score : String → String → Nat) (n : Option String)
    (p : Option (List SocioPair)) :
    (match_row score n p).socio_cpf = decide (0 < (p.getD []).length) := rfl

theorem match_row_socio_nome (score : String → String → Nat) (n : Option String)
    (p : Option (List SocioPair)) :
    (match_row score n p).socio_nome
      = decide (0 < ((matched_socios score n (p.getD [])).map Prod.fst).length) := rfl

theorem match_row_socio (score : String → String → Nat) (n : Option String)
    (p : Option (List SocioPair)) :
    (match_row score n p).socio
      = ((match_row score n p).socio_cpf && (match_row score n p).socio_nome) := rfl

theorem matched_socios_of_nil (score : String → String → Nat) (n : Option String) :
    matched_socios score n [] = [] := by
  simp [matched_socios]

/-- Characterization of a non-empty `_matched_socios` result: the person
name is non-empty and some fragment-joined pair clears the threshold and
carries a truthy cnpj. -/
theorem matched_socios_ne_nil_iff (score : String → String → Nat)
    (nome_norm : Option String) (pairs : List SocioPair) :
    matched_socios score nome_norm pairs ≠ [] ↔
      nome_norm.getD "" ≠ "" ∧ ∃ pair ∈ pairs,
        90 ≤ score (nome_norm.getD "") (pair.nome_norm.getD "")
        ∧ pair.cnpj_basico.getD "" ≠ "" := by
  unfold matched_socios
  by_cases hg : pairs = [] ∨ nome_norm.getD "" = ""
  · rw [if_pos hg]
    simp only [ne_eq, not_true_eq_false, false_iff, not_and]
    rcases hg with hg | hg
    · intro _
      simp [hg]
    · intro hn
      exact absurd hg hn
  · rw [if_neg hg]
    push_neg at hg
    obtain ⟨hp, hn⟩ := hg
    constructor
    · intro hne
      refine ⟨hn, ?_⟩
      obtain ⟨x, hx⟩ := List.exists_mem_of_ne_nil _ hne
      obtain ⟨pair, hpair, hfx⟩ := List.mem_filterMap.mp hx
      refine ⟨pair, hpair, ?_⟩
      by_cases hsim : has_similar_name score (nome_norm.getD "")
          [pair.nome_norm.getD ""]
      · rw [if_pos hsim] at hfx
        by_cases hc : pair.cnpj_basico.getD "" ≠ ""
        · refine ⟨?_, hc⟩
          unfold has_similar_name at hsim
          rw [if_neg hn] at hsim
          simpa using hsim
        · rw [if_neg hc] at hfx
          simp at hfx
      · rw [if_neg hsim] at hfx
        simp at hfx
    · rintro ⟨-, pair, hpair, hscore, hc⟩
      have hsim : has_similar_name score (nome_norm.getD "")
          [pair.nome_norm.getD ""] = true := by
        unfold has_similar_name
        rw [if_neg hn]
        simpa using hscore
      intro hnil
      rw [List.filterMap_eq_nil_iff] at hnil
      have h2 := hnil pair hpair
      simp [hsim, hc] at h2

/-! ## Claim theorems: fragments and normalizer -/

/-- C3 counterexample: on `"12345678901"` the fragment extractors return
`"456789"`, not the `"234567"` the claim asserts. -/
theorem C3_counterexample :
    middle_cpf_fragment (some "12345678901") ≠ "234567"
    ∧ cpf_fragment_from_digits (some "12345678901") ≠ "234567" := by
  constructor <;> decide

/-- C3 (amended): the fragment extractors are pure functions and on the
11-digit input `"12345678901"` both return the slice at offsets 3 through
8, which is `"456789"`. -/
theorem C3_fragment_on_sample :
    middle_cpf_fragment (some "12345678901") = "456789"
    ∧ cpf_fragment_from_digits (some "12345678901") = "456789" := by
  constructor <;> decide

/-- C4 counterexample: on the 8-digit string `"12345678"` the alumni-side
extractor `_middle_cpf_fragment` returns `""`, not the last six digits
required by the claim's rule. -/
theorem C4_counterexample :
    middle_cpf_fragment (some "12345678") ≠ fragment_rule_spec "12345678" := by
  decide

/-- C4 (amended): the reference-side extractor `_cpf_fragment_from_digits`
implements the spec's full rule (≥ 11 digits → middle slice, 6-10 → last
six, else empty); the alumni-side `_middle_cpf_fragment` implements only
the first branch and returns the empty string for every cleaned digit
string shorter than 11. -/
theorem C4_extractor_rules :
    (∀ d : String, cpf_fragment_from_digits (some d) = fragment_rule_spec d)
    ∧ (∀ d : String, d.data.all Char.isDigit = true →
        middle_cpf_fragment (some d)
          = if 11 ≤ d.data.length then fragment_rule_spec d else "") := by
  constructor
  · intro d
    by_cases hd : d = ""
    · subst hd
      decide
    · simp only [cpf_fragment_from_digits, fragment_rule_spec, hd, if_false]
  · intro d h
    have hfilter : d.data.filter Char.isDigit = d.data :=
      List.filter_eq_self.mpr (by simpa [List.all_eq_true] using h)
    by_cases hd : d = ""
    · subst hd
      decide
    · simp only [middle_cpf_fragment, hd, if_false, hfilter, fragment_rule_spec]
      by_cases hlen : d.data.length < 11
      · rw [if_pos hlen, if_neg (by omega)]
      · rw [if_neg hlen, if_pos (by omega), if_pos (by omega)]

/-- C4 witness: on the 7-digit string `"1234567"` the reference-side
extractor returns the last six digits and the alumni-side extractor
returns the empty string. -/
theorem C4_witness :
    cpf_fragment_from_digits (some "1234567") = "234567"
    ∧ middle_cpf_fragment (some "1234567") = "" := by
  constructor
  · rw [C4_extractor_rules.1 "1234567"]
    decide
  · rw [C4_extractor_rules.2 "1234567" (by decide)]
    decide

/-- C8: for every input (including null and malformed strings) both
fragment extractors return a string of length exactly 0 or exactly 6. -/
theorem C8_fragment_length :
    ∀ v : Option String,
      ((middle_cpf_fragment v).length = 0 ∨ (middle_cpf_fragment v).length = 6)
      ∧ ((cpf_fragment_from_digits v).length = 0
          ∨ (cpf_fragment_from_digits v).length = 6) := by
  intro v
  constructor
  · cases v with
    | none => exact Or.inl rfl
    | some s =>
      by_cases hs : s = ""
      · subst hs
        exact Or.inl rfl
      · simp only [middle_cpf_fragment, hs, if_false]
        by_cases hlen : (s.data.filter Char.isDigit).length < 11
        · rw [if_pos hlen]
          exact Or.inl rfl
        · rw [if_neg hlen]
          right
          show (((s.data.filter Char.isDigit).drop 3).take 6).length = 6
          rw [List.length_take, List.length_drop]
          omega
  · cases v with
    | none => exact Or.inl rfl
    | some s =>
      by_cases hs : s = ""
      · subst hs
        exact Or.inl rfl
      · simp only [cpf_fragment_from_digits, hs, if_false]
        by_cases h11 : 11 ≤ s.data.length
        · rw [if_pos h11]
          right
          show ((s.data.drop 3).take 6).length = 6
          rw [List.length_take, List.length_drop]
          omega
        · rw [if_neg h11]
          by_cases h6 : 6 ≤ s.data.length
          · rw [if_pos h6]
            right
            show (s.data.drop (s.data.length - 6)).length = 6
            rw [List.length_drop]
            omega
          · rw [if_neg h6]
            exact Or.inl rfl

/-- C9: the name normalizer is idempotent on every string, maps
`"joão  DA Silva"` to `"JOAO DA SILVA"`, and maps null to the empty
string. -/
theorem C9_normalizer_idempotent :
    (∀ s : String,
      normalize_name (some (normalize_name (some s))) = normalize_name (some s))
    ∧ normalize_name (some "joão  DA Silva") = "JOAO DA SILVA"
    ∧ normalize_name none = "" :=
  ⟨normalize_name_idem, by decide, rfl⟩

/-! ## Claim theorems: founder window and matcher signals -/

/-- C2: in `label_socios_fundadores` a partner relation with both dates
parsed is labeled a founding relation exactly when the absolute day gap is
at most `max_gap_days`, a parameter defaulting to
`MAX_FOUNDER_GAP_DAYS = 7`; at the boundary, a 7-day gap qualifies and an
8-day gap does not. -/
theorem C2_founder_window :
    MAX_FOUNDER_GAP_DAYS = 7
    ∧ (∀ (assoc inicio : Option String) (a i : Nat) (w : Int),
        parse_date_opt assoc = some a → parse_date_opt inicio = some i →
        (founder_condition (parse_date_opt assoc) (parse_date_opt inicio) w = true
          ↔ ((((a : Int) - (i : Int)).natAbs : Int) ≤ w)))
    ∧ founder_condition (parse_date_opt (some "2020-01-01"))
        (parse_date_opt (some "2020-01-08")) 7 = true
    ∧ founder_condition (parse_date_opt (some "2020-01-01"))
        (parse_date_opt (some "2020-01-09")) 7 = false := by
  refine ⟨rfl, ?_, by decide, by decide⟩
  intro assoc inicio a i w ha hi
  rw [ha, hi]
  simp [founder_condition, diferenca_dias]

/-- C2 witness: the boundary instance, derived by applying the window
characterization to the parsed sample dates. -/
theorem C2_witness :
    founder_condition (parse_date_opt (some "2020-01-08"))
      (parse_date_opt (some "2020-01-01")) 7 = true :=
  (C2_founder_window.2.1 (some "2020-01-08") (some "2020-01-01")
      (daysFromCivil 2020 1 8) (daysFromCivil 2020 1 1) 7
      (by decide) (by decide)).mpr (by decide)

/-- C1 counterexample: a person whose single fragment-joined candidate has
an identical name but a null company id.  The spec formula
(`is_partner_spec`, fragment AND name-similarity) says partner; the code's
`socio` flag is false because `_matched_socios` additionally requires a
truthy `cnpj_basico`. -/
theorem C1_counterexample :
    ¬ ((match_row token_set_ratio_model (some "MARIA SILVA")
          (some [{ nome_norm := some "MARIA SILVA", cnpj_basico := none
                 , data_associacao := none }])).socio
        = is_partner_spec token_set_ratio_model (some "MARIA SILVA")
            [{ nome_norm := some "MARIA SILVA", cnpj_basico := none
             , data_associacao := none }]) := by
  decide

/-- C1 (amended): the final `socio` flag is the conjunction of the
`socio_cpf` and `socio_nome` columns, and `socio_nome` holds exactly when
the person's normalized name is non-empty and some fragment-joined
candidate both clears the 90-point similarity threshold and carries a
non-null, non-empty company id. -/
theorem C1_is_partner_signals :
    ∀ (score : String → String → Nat) (nome_norm : Option String)
      (socio_pairs : Option (List SocioPair)),
      (match_row score nome_norm socio_pairs).socio
        = ((match_row score nome_norm socio_pairs).socio_cpf
            && (match_row score nome_norm socio_pairs).socio_nome)
      ∧ ((match_row score nome_norm socio_pairs).socio_nome = true
          ↔ nome_norm.getD "" ≠ "" ∧ ∃ pair ∈ socio_pairs.getD [],
              90 ≤ score (nome_norm.getD "") (pair.nome_norm.getD "")
              ∧ pair.cnpj_basico.getD "" ≠ "") := by
  intro score nome_norm socio_pairs
  refine ⟨match_row_socio score nome_norm socio_pairs, ?_⟩
  rw [match_row_socio_nome, decide_eq_true_iff, List.length_map,
    List.length_pos_iff_ne_nil]
  exact matched_socios_ne_nil_iff score nome_norm (socio_pairs.getD [])

/-- C1 witness: the amended name-signal characterization instantiated at a
candidate with an identical name and company id `"C1"`. -/
theorem C1_witness :
    (match_row token_set_ratio_model (some "MARIA SILVA")
        (some [{ nome_norm := some "MARIA SILVA", cnpj_basico := some "C1"
               , data_associacao := none }])).socio_nome = true :=
  (C1_is_partner_signals token_set_ratio_model (some "MARIA SILVA")
      (some [{ nome_norm := some "MARIA SILVA", cnpj_basico := some "C1"
             , data_associacao := none }])).2.mpr
    ⟨by decide,
      ⟨{ nome_norm := some "MARIA SILVA", cnpj_basico := some "C1"
       , data_associacao := none }, by decide, by decide, by decide⟩⟩

/-- C10: `socio_nome` can only hold when `socio_cpf` holds (name
confirmation runs over fragment-joined candidates only and requires a
truthy company id), so the final `socio` flag always equals
`socio_nome`. -/
theorem C10_socio_equals_socio_nome :
    ∀ (score : String → String → Nat) (nome_norm : Option String)
      (socio_pairs : Option (List SocioPair)),
      ((match_row score nome_norm socio_pairs).socio_nome = true →
        (match_row score nome_norm socio_pairs).socio_cpf = true)
      ∧ (match_row score nome_norm socio_pairs).socio
          = (match_row score nome_norm socio_pairs).socio_nome := by
  intro score nome_norm socio_pairs
  have himp : (match_row score nome_norm socio_pairs).socio_nome = true →
      (match_row score nome_norm socio_pairs).socio_cpf = true := by
    intro h
    rw [match_row_socio_nome, decide_eq_true_iff, List.length_map,
      List.length_pos_iff_ne_nil] at h
    rw [match_row_socio_cpf, decide_eq_true_iff, List.length_pos_iff_ne_nil]
    intro hpairs
    apply h
    rw [hpairs]
    exact matched_socios_of_nil score nome_norm
  refine ⟨himp, ?_⟩
  rw [match_row_socio]
  cases hn : (match_row score nome_norm socio_pairs).socio_nome with
  | false => exact Bool.and_false _
  | true => rw [himp hn, Bool.true_and]

/-- C10 witness: at a concrete matching candidate, the name signal forces
the fragment signal. -/
theorem C10_witness :
    (match_row token_set_ratio_model (some "MARIA SILVA")
        (some [{ nome_norm := some "MARIA SILVA", cnpj_basico := some "C1"
               , data_associacao := none }])).socio_cpf = true :=
  (C10_socio_equals_socio_nome token_set_ratio_model (some "MARIA SILVA")
      (some [{ nome_norm := some "MARIA SILVA", cnpj_basico := some "C1"
             , data_associacao := none }])).1 (by decide)

/-! ## Pipeline lemmas -/

theorem groupBy_map_keys_nodup {α κ : Type} {B : Type} [DecidableEq κ]
    (key : α → κ) (rows : List α) (f : κ × List α → B) :
    (((groupBy key rows).map fun g => (g.1, f g)).map Prod.fst).Nodup := by
  rw [List.map_map]
  have hid : (Prod.fst ∘ fun g : κ × List α => (g.1, f g)) = Prod.fst := rfl
  rw [hid]
  exact groupBy_keys_nodup key rows

theorem load_socios_keys_nodup {raw : Option (List SocioRaw)} {hasDataCol : Bool}
    {socios : List (String × List SocioPair)}
    (h : load_socios_base raw hasDataCol = some socios) :
    (socios.map fun g => (some g.1 : Option String)).Nodup := by
  cases raw with
  | none => simp [load_socios_base] at h
  | some rows =>
    simp only [load_socios_base] at h
    by_cases he : (rows.filter fun r =>
        r.cpf_fragment.isSome && decide (r.cpf_fragment.getD "" ≠ "")).isEmpty
    · rw [if_pos he] at h
      simp at h
    · rw [if_neg he] at h
      simp only [Option.some.injEq] at h
      subst h
      rw [List.map_map]
      have hcomp : ((fun g => (some g.1 : Option String))
          ∘ fun g : String × List (String × SocioPair) => (g.1, g.2.map Prod.snd))
          = (some ∘ Prod.fst) := rfl
      rw [hcomp, ← List.map_map]
      exact List.Nodup.map (Option.some_injective _) (groupBy_keys_nodup _ _)

theorem apply_assoc_length (rows : List EnrichedRow) :
    (apply_assoc rows).length = rows.length := by
  unfold apply_assoc
  split
  · rw [List.length_map]
  · rw [List.length_map]
    apply joinLeft_length
    unfold assoc_grouped
    exact groupBy_map_keys_nodup _ _ _

theorem apply_founder_length (rows : List EnrichedRow)
    (empresasOpt : Option (List (String × Option Nat))) :
    (apply_founder rows empresasOpt).length = rows.length := by
  cases empresasOpt with
  | none =>
    simp only [apply_founder]
    rw [List.length_map]
  | some empresas =>
    simp only [apply_founder]
    split
    · rw [List.length_map]
    · split
      · rw [List.length_map]
      · rw [List.length_map]
        apply joinLeft_length
        rw [List.map_id]
        exact List.nodup_dedup _

theorem apply_assoc_person {rows : List EnrichedRow} {r : EnrichedRow}
    (h : r ∈ apply_assoc rows) : ∃ r0 ∈ rows, r.person = r0.person := by
  unfold apply_assoc at h
  split at h
  · obtain ⟨r0, hr0, rfl⟩ := List.mem_map.mp h
    exact ⟨r0, hr0, rfl⟩
  · obtain ⟨p, hp, rfl⟩ := List.mem_map.mp h
    exact ⟨p.1, joinLeft_fst_mem hp, rfl⟩

theorem apply_founder_person {rows : List EnrichedRow}
    {empresasOpt : Option (List (String × Option Nat))} {r : EnrichedRow}
    (h : r ∈ apply_founder rows empresasOpt) : ∃ r0 ∈ rows, r.person = r0.person := by
  cases empresasOpt with
  | none =>
    simp only [apply_founder] at h
    obtain ⟨r0, hr0, rfl⟩ := List.mem_map.mp h
    exact ⟨r0, hr0, rfl⟩
  | some empresas =>
    simp only [apply_founder] at h
    split at h
    · obtain ⟨r0, hr0, rfl⟩ := List.mem_map.mp h
      exact ⟨r0, hr0, rfl⟩
    · split at h
      · obtain ⟨r0, hr0, rfl⟩ := List.mem_map.mp h
        exact ⟨r0, hr0, rfl⟩
      · obtain ⟨p, hp, rfl⟩ := List.mem_map.mp h
        exact ⟨p.1, joinLeft_fst_mem hp, rfl⟩

theorem nullifyCol_nome (c : String) (r : PersonRow) :
    (nullifyCol c r).nome = if c = "nome" then none else r.nome := by
  by_cases hc : c = "nome"
  · subst hc
    rw [if_pos rfl]
    rfl
  · rw [if_neg hc]
    unfold nullifyCol
    by_cases h1 : c = "id_pessoa"
    · rw [if_pos h1]
    · rw [if_neg h1]
      by_cases h2 : c = "matricula"
      · rw [if_pos h2]
      · rw [if_neg h2]
        rw [if_neg hc]
        by_cases h3 : c = "nome_norm"
        · rw [if_pos h3]
        · rw [if_neg h3]
          by_cases h4 : c = "idade"
          · rw [if_pos h4]
          · rw [if_neg h4]
            by_cases h5 : c = "faixa_etaria"
            · rw [if_pos h5]
            · rw [if_neg h5]
              by_cases h6 : c = "data_nascimento"
              · rw [if_pos h6]
              · rw [if_neg h6]
                by_cases h7 : c = "data_ingresso"
                · rw [if_pos h7]
                · rw [if_neg h7]
                  by_cases h8 : c = "data_formacao"
                  · rw [if_pos h8]
                  · rw [if_neg h8]
                    by_cases h9 : c = "ultimo_curso"
                    · rw [if_pos h9]
                    · rw [if_neg h9]
                      by_cases h10 : c = "nivel"
                      · rw [if_pos h10]
                      · rw [if_neg h10]
                        by_cases h11 : c = "codigo_curso"
                        · rw [if_pos h11]
                        · rw [if_neg h11]

theorem foldl_nullify_nome_preserved :
    ∀ (cs : List String) (r : PersonRow), r.nome = none →
      (cs.foldl (fun r c => nullifyCol c r) r).nome = none := by
  intro cs
  induction cs with
  | nil => intro r h; exact h
  | cons c cs ih =>
    intro r h
    rw [List.foldl_cons]
    apply ih
    rw [nullifyCol_nome]
    split <;> simp [h]

theorem foldl_nullify_nome :
    ∀ (cs : List String) (r : PersonRow), "nome" ∈ cs →
      (cs.foldl (fun r c => nullifyCol c r) r).nome = none := by
  intro cs
  induction cs with
  | nil => intro r h; simp at h
  | cons c cs ih =>
    intro r h
    rw [List.foldl_cons]
    by_cases hc : c = "nome"
    · apply foldl_nullify_nome_preserved
      rw [nullifyCol_nome, if_pos hc]
    · apply ih
      rcases List.mem_cons.mp h with h1 | h1
      · exact absurd h1.symm hc
      · exact h1

theorem fillMissingCols_nome {cols : List String} (r : PersonRow)
    (h : cols.contains "nome" = false) : (fillMissingCols cols r).nome = none := by
  unfold fillMissingCols
  apply foldl_nullify_nome
  rw [List.mem_filter]
  refine ⟨by decide, ?_⟩
  rw [h]
  rfl

theorem map_pair_fst_nodup {κ A B : Type} [DecidableEq κ] (l : List (κ × A))
    (f : κ × A → B) (h : (l.map Prod.fst).Nodup) :
    ((l.map fun g => (g.1, f g)).map Prod.fst).Nodup := by
  rw [List.map_map]
  have hid : (Prod.fst ∘ fun g : κ × A => (g.1, f g)) = Prod.fst := rfl
  rw [hid]
  exact h

/-- Row-count preservation through `mark_founders`: a successful run has
exactly one output row per input row. -/
theorem mark_founders_length {score : String → String → Nat} {cols : List String}
    {df : List PersonRow} {sociosRaw : Option (List SocioRaw)} {hasDataCol : Bool}
    {empresasRaw : Option (List EmpresaRaw)} {out : List EnrichedRow}
    (h : mark_founders score cols df sociosRaw hasDataCol empresasRaw = .ok out) :
    out.length = df.length := by
  unfold mark_founders at h
  cases hload : load_socios_base sociosRaw hasDataCol with
  | none =>
    rw [hload] at h
    dsimp only at h
    injection h with h
    subst h
    rw [List.length_map, List.length_map]
  | some socios =>
    rw [hload] at h
    dsimp only at h
    split at h
    · exact absurd h (by simp)
    · injection h with h
      subst h
      rw [apply_founder_length, apply_assoc_length, List.length_map,
        joinLeft_length _ _ _ _ (load_socios_keys_nodup hload),
        List.length_map, List.length_map]

/-- Row-count preservation through `label_socios_fundadores`. -/
theorem label_length {cols : List String} {egressos : List EgRow}
    {empresas : List EmpresaRaw} {w : Int} {out : List (EgRow × FundCols)}
    (h : label_socios_fundadores cols egressos empresas w = .ok out) :
    out.length = egressos.length := by
  unfold label_socios_fundadores at h
  split at h
  · exact absurd h (by simp)
  · split at h
    · exact absurd h (by simp)
    · dsimp only at h
      split at h
      · injection h with h
        subst h
        rw [List.length_map]
      · split at h
        · injection h with h
          subst h
          rw [List.length_map]
        · injection h with h
          subst h
          rw [List.length_map]
          apply joinLeft_length
          exact map_pair_fst_nodup _ _ (map_pair_fst_nodup _ _ (groupBy_keys_nodup _ _))

/-! ## Claim theorems: pipeline -/

/-- C5: when the partner base is absent or holds no valid fragment record
(`_load_socios_base` returns `None`), `mark_founders` returns normally —
one row per person — with `socio`, `socio_cpf`, `socio_nome` and
`fundador` all false, the cnpj/date list columns empty and the first
association date null. -/
theorem C5_soft_degradation :
    ∀ (score : String → String → Nat) (cols : List String) (df : List PersonRow)
      (sociosRaw : Option (List SocioRaw)) (hasDataCol : Bool)
      (empresasRaw : Option (List EmpresaRaw)),
      load_socios_base sociosRaw hasDataCol = none →
      mark_founders score cols df sociosRaw hasDataCol empresasRaw
        = .ok ((df.map (fillMissingCols cols)).map emptyFlagsRow)
      ∧ ((df.map (fillMissingCols cols)).map emptyFlagsRow).length = df.length
      ∧ ∀ r ∈ (df.map (fillMissingCols cols)).map emptyFlagsRow,
          r.socio = false ∧ r.socio_cpf = false ∧ r.socio_nome = false
          ∧ r.fundador = false ∧ r.cnpj_basico = [] ∧ r.data_associacao = []
          ∧ r.datas_associacao = [] ∧ r.data_associacao_primeira = none
          ∧ r.datas_associacao_por_empresa = [] := by
  intro score cols df sociosRaw hasDataCol empresasRaw hload
  refine ⟨?_, by rw [List.length_map, List.length_map], ?_⟩
  · unfold mark_founders
    rw [hload]
  · intro r hr
    obtain ⟨p, -, rfl⟩ := List.mem_map.mp hr
    exact ⟨rfl, rfl, rfl, rfl, rfl, rfl, rfl, rfl, rfl⟩

/-- C5 witness: an absent partner base (`None`) with one sample person. -/
theorem C5_witness :
    load_socios_base none true = none
    ∧ mark_founders token_set_ratio_model sampleCols [samplePerson] none true none
        = .ok (([samplePerson].map (fillMissingCols sampleCols)).map emptyFlagsRow) :=
  ⟨rfl, (C5_soft_degradation token_set_ratio_model sampleCols [samplePerson]
      none true none rfl).1⟩

/-- C6: both annotation stages preserve the person-row count — every join
is a left join against a right table with unique keys, so a successful
run of `mark_founders` or of `label_socios_fundadores` returns exactly one
row per input row. -/
theorem C6_row_counts :
    (∀ (score : String → String → Nat) (cols : List String) (df : List PersonRow)
       (sociosRaw : Option (List SocioRaw)) (hasDataCol : Bool)
       (empresasRaw : Option (List EmpresaRaw)) (out : List EnrichedRow),
       mark_founders score cols df sociosRaw hasDataCol empresasRaw = .ok out →
       out.length = df.length)
    ∧ (∀ (cols : List String) (egressos : List EgRow) (empresas : List EmpresaRaw)
       (w : Int) (out : List (EgRow × FundCols)),
       label_socios_fundadores cols egressos empresas w = .ok out →
       out.length = egressos.length) :=
  ⟨fun _ _ _ _ _ _ _ h => mark_founders_length h,
   fun _ _ _ _ _ h => label_length h⟩

/-- C6 witness: both stages run on one-row sample inputs and return
exactly one row. -/
theorem C6_witness :
    ((mark_founders token_set_ratio_model sampleCols [samplePerson]
        (some [sampleSocioRaw]) true (some [sampleEmpresa])).toOption.getD []).length
      = [samplePerson].length
    ∧ ((label_socios_fundadores label_required_cols [sampleEgresso]
        [sampleEmpresa] 7).toOption.getD []).length = [sampleEgresso].length :=
  ⟨C6_row_counts.1 token_set_ratio_model sampleCols [samplePerson]
      (some [sampleSocioRaw]) true (some [sampleEmpresa]) _ rfl,
   C6_row_counts.2 label_required_cols [sampleEgresso] [sampleEmpresa] 7 _ rfl⟩

/-- C7 counterexample: an alumni frame missing the required column `nome`
(but carrying `cpf_limpo`) with a valid partner base.  `mark_founders`
does not abort: it returns one row per person with the missing column
filled by null placeholders. -/
theorem C7_counterexample :
    (mark_founders token_set_ratio_model sampleColsNoNome [samplePerson]
        (some [sampleSocioRaw]) true none).isOk = true
    ∧ ((mark_founders token_set_ratio_model sampleColsNoNome [samplePerson]
        (some [sampleSocioRaw]) true none).toOption.getD []).all
        (fun r => r.person.nome == none) = true := by
  constructor <;> rfl

/-- C7 (amended): only the founder-labeling stage aborts when required
person columns are missing (`label_socios_fundadores` raises); the
matcher stage `mark_founders` logs a warning, fills every missing
required column with nulls, and returns one row per person (as long as
`cpf_limpo`, which is not in its required list, is present). -/
theorem C7_abort_asymmetry :
    (∀ (cols : List String) (egressos : List EgRow) (empresas : List EmpresaRaw)
       (w : Int), (∃ c ∈ label_required_cols, cols.contains c = false) →
       ∃ e, label_socios_fundadores cols egressos empresas w = .error e)
    ∧ (∀ (score : String → String → Nat) (cols : List String) (df : List PersonRow)
       (sociosRaw : Option (List SocioRaw)) (hasDataCol : Bool)
       (empresasRaw : Option (List EmpresaRaw)),
       cols.contains "cpf_limpo" = true →
       ∃ out, mark_founders score cols df sociosRaw hasDataCol empresasRaw = .ok out
         ∧ out.length = df.length
         ∧ (cols.contains "nome" = false → ∀ r ∈ out, r.person.nome = none)) := by
  constructor
  · rintro cols egressos empresas w ⟨c, hc, hcontains⟩
    unfold label_socios_fundadores
    by_cases hw : w < 0
    · rw [if_pos hw]
      exact ⟨_, rfl⟩
    · rw [if_neg hw]
      have hall : (label_required_cols.all fun c => cols.contains c) = false := by
        rw [List.all_eq_false]
        exact ⟨c, hc, by simpa using hcontains⟩
      rw [hall]
      exact ⟨_, rfl⟩
  · intro score cols df sociosRaw hasDataCol empresasRaw hcp
    cases hload : load_socios_base sociosRaw hasDataCol with
    | none =>
      refine ⟨(df.map (fillMissingCols cols)).map emptyFlagsRow, ?_, ?_, ?_⟩
      · unfold mark_founders
        rw [hload]
      · rw [List.length_map, List.length_map]
      · intro hnome r hr
        obtain ⟨q, hq, rfl⟩ := List.mem_map.mp hr
        obtain ⟨p, hp, rfl⟩ := List.mem_map.mp hq
        exact fillMissingCols_nome p hnome
    | some socios =>
      have hok : mark_founders score cols df sociosRaw hasDataCol empresasRaw
          = .ok (apply_founder (apply_assoc
              ((joinLeft ((df.map (fillMissingCols cols)).map fun p =>
                  (p, p.cpf_limpo.map fun v => middle_cpf_fragment (some v)))
                socios (fun p => p.2) (fun g => some g.1)).map fun p =>
                  enrich_row score p.1.1 (p.2.map Prod.snd)))
              (load_empresas_base empresasRaw)) := by
        unfold mark_founders
        rw [hload]
        dsimp only
        rw [if_neg (by rw [hcp]; simp)]
      refine ⟨_, hok, mark_founders_length hok, ?_⟩
      intro hnome r hr
      obtain ⟨r1, hr1, hp1⟩ := apply_founder_person hr
      obtain ⟨r2, hr2, hp2⟩ := apply_assoc_person hr1
      obtain ⟨p, hp, rfl⟩ := List.mem_map.mp hr2
      rw [hp1, hp2]
      have hpfst := joinLeft_fst_mem hp
      obtain ⟨q, hq, hpq⟩ := List.mem_map.mp hpfst
      obtain ⟨p0, hp0, rfl⟩ := List.mem_map.mp hq
      have hperson : (enrich_row score p.1.1 (p.2.map Prod.snd)).person = p.1.1 := rfl
      rw [hperson, ← hpq]
      exact fillMissingCols_nome p0 hnome

/-- C7 witness: the founder-labeling stage errors on a frame exposing only
`socio`, while the matcher stage succeeds on the full sample frame. -/
theorem C7_witness :
    (∃ c ∈ label_required_cols, (["socio"] : List String).contains c = false)
    ∧ (∃ e, label_socios_fundadores ["socio"] [sampleEgresso] [sampleEmpresa] 7
        = .error e)
    ∧ sampleCols.contains "cpf_limpo" = true
    ∧ ∃ out, mark_founders token_set_ratio_model sampleCols [samplePerson]
        none true none = .ok out
      ∧ out.length = [samplePerson].length
      ∧ (sampleCols.contains "nome" = false → ∀ r ∈ out, r.person.nome = none) :=
  ⟨by decide,
   C7_abort_asymmetry.1 ["socio"] [sampleEgresso] [sampleEmpresa] 7 (by decide),
   by decide,
   C7_abort_asymmetry.2 token_set_ratio_model sampleCols [samplePerson]
     none true none (by decide)⟩

end IPE2

